import Mathlib

/-!
Verification of the PartyPrint print-job queue (src/main.py, src/admin.py).

The job store is the SQLite `jobs` table, embedded as a list of rows in
insertion (rowid) order.  Each HTTP handler that touches the table is
embedded as a pure function from the store (plus its request parameters)
to a result and an updated store.  Outcomes of external collaborators
(the S3 blob store) are passed in as explicit booleans.
-/

namespace PartyPrint

/-- One row of the `jobs` table:
`id TEXT PRIMARY KEY, filename TEXT, user TEXT, url TEXT,
 status TEXT DEFAULT 'uploaded', created_at TIMESTAMP`. -/
structure Job where
  id : String
  filename : String
  user : String
  url : String
  status : String
  created_at : Nat
deriving DecidableEq, Repr

/-- The `jobs` table, rows in insertion (rowid) order. -/
abbrev JobStore := List Job

/-- The four fields `next_job` returns to the polling agent
(`dict(zip(["id", "filename", "user", "url"], rows[0]))`). -/
structure JobView where
  id : String
  filename : String
  user : String
  url : String
deriving DecidableEq, Repr

def Job.view (j : Job) : JobView :=
  { id := j.id, filename := j.filename, user := j.user, url := j.url }

/-- Outcome of a mutation endpoint: the `{"ok": True, ...}` body, or the
`{"ok": False, "error": "Job not found"}` 404 response. -/
inductive ApiResult where
  | ok : ApiResult
  | notFound : ApiResult
deriving DecidableEq, Repr

/-- `UPDATE jobs SET status = <st> WHERE id = <jobId>`. -/
def db_update_status (s : JobStore) (jobId st : String) : JobStore :=
  s.map fun j => if j.id == jobId then { j with status := st } else j

/-- Status of the job with the given id, `none` when no row matches
(the first matching row when several share an id; the PRIMARY KEY on
`id` makes the match unique in reachable stores). -/
def statusOf (s : JobStore) (jobId : String) : Option String :=
  (s.find? fun j => j.id == jobId).map Job.status

/-- `POST /print/{job_id}` (src/main.py `trigger_print`): 404 if no row
has the id, otherwise `UPDATE jobs SET status = 'queued' WHERE id = ?`. -/
def trigger_print (s : JobStore) (job_id : String) : ApiResult × JobStore :=
  if (s.filter fun j => j.id == job_id).isEmpty then
    (ApiResult.notFound, s)
  else
    (ApiResult.ok, db_update_status s job_id "queued")

/-- `POST /queue_job/<job_id>` (src/admin.py `queue_job`): unconditional
`UPDATE jobs SET status = 'queued' WHERE id = ?`, no existence check. -/
def queue_job (s : JobStore) (job_id : String) : ApiResult × JobStore :=
  (ApiResult.ok, db_update_status s job_id "queued")

/-- `POST /mark-printed/{job_id}` (src/main.py `mark_printed`, identical
to src/admin.py `mark_printed`): unconditional
`UPDATE jobs SET status = 'printed' WHERE id = ?`, then `{"ok": True}` —
the handler never checks whether the id exists. -/
def mark_printed (s : JobStore) (job_id : String) : ApiResult × JobStore :=
  (ApiResult.ok, db_update_status s job_id "printed")

/-- The row produced by
`SELECT ... WHERE status = 'queued' ORDER BY created_at ASC LIMIT 1`:
the first row, in table order, whose `created_at` is minimal among
queued rows (SQLite scans in rowid order, so ties go to the earlier
insertion). -/
def minByCreated : List Job → Option Job
  | [] => none
  | j :: rest =>
    match minByCreated rest with
    | none => some j
    | some b => if b.created_at < j.created_at then some b else some j

/-- The SELECT phase of `next_job`. -/
def next_job_select (s : JobStore) : Option Job :=
  minByCreated (s.filter fun j => j.status == "queued")

/-- The UPDATE phase of `next_job`:
`UPDATE jobs SET status = 'printing' WHERE id = ?` —
note the update is filtered on the id only, not on `status = 'queued'`. -/
def next_job_update (s : JobStore) (jobId : String) : JobStore :=
  db_update_status s jobId "printing"

/-- `GET /next-job` (src/main.py `next_job`) run without interference:
SELECT the oldest queued row; if none, return the all-`None` body and
leave the table alone; otherwise set that id to `printing` and return
the row's four public fields. -/
def next_job (s : JobStore) : Option JobView × JobStore :=
  match next_job_select s with
  | none => (none, s)
  | some j => (some j.view, next_job_update s j.id)

/-- Two `GET /next-job` callers under the interleaving in which both run
their SELECT before either runs its UPDATE.  The code issues the SELECT
and the UPDATE as two separate `db_query` calls (two SQLite connections),
so this schedule is possible. -/
def next_job_interleaved (s : JobStore) :
    Option JobView × Option JobView × JobStore :=
  let r1 := next_job_select s
  let r2 := next_job_select s
  let s1 := match r1 with | none => s | some j => next_job_update s j.id
  let s2 := match r2 with | none => s1 | some j => next_job_update s1 j.id
  (r1.map Job.view, r2.map Job.view, s2)

/-- Result of `POST /upload` (src/main.py `upload`): the
`{"ok": True, "id": ..., "path": ...}` body, or the
`{"ok": False, "error": ...}` body produced when `s3.upload_fileobj`
raises `ClientError`. -/
inductive UploadResult where
  | success (id url : String)
  | failure
deriving DecidableEq, Repr

/-- `INSERT INTO jobs (...) VALUES (...)`:  `id` is the PRIMARY KEY, so
an insert with an id already present aborts and leaves the table
unchanged (the raised error propagates; no row is written). -/
def insert_job (s : JobStore) (j : Job) : JobStore :=
  if s.any fun k => k.id == j.id then s else s ++ [j]

/-- `POST /upload` (src/main.py `upload`): builds
`filename = f"{job_id}_{image.filename}"`, then tries the S3 put
(outcome `putOk`).  On `ClientError` it returns the failure body without
touching the table; only after a successful put does it INSERT the row
with status `'uploaded'` and return the id. -/
def upload (s : JobStore) (job_id image_filename user bucket : String)
    (created : Nat) (putOk : Bool) : UploadResult × JobStore :=
  let filename := job_id ++ "_" ++ image_filename
  if putOk then
    let url := "https://" ++ bucket ++ ".s3.amazonaws.com/" ++ filename
    (UploadResult.success job_id url,
     insert_job s
       { id := job_id, filename := filename, user := user, url := url,
         status := "uploaded", created_at := created })
  else
    (UploadResult.failure, s)

/-- `POST /delete_job/<job_id>` (src/admin.py `delete_job`): look up the
row's filename; if present, try `s3.delete_object` (outcome `blobOk`),
catching `ClientError` with only a log line; then unconditionally
`DELETE FROM jobs WHERE id = ?` and redirect (never a queue error). -/
def delete_job (s : JobStore) (job_id : String) (blobOk : Bool) :
    ApiResult × List String × JobStore :=
  let row := s.filter fun j => j.id == job_id
  let blobLog :=
    match row with
    | [] => []
    | r :: _ =>
      if blobOk then ["[ADMIN] Deleted " ++ r.filename ++ " from S3."]
      else ["[ADMIN] Failed to delete " ++ r.filename]
  (ApiResult.ok,
   blobLog ++ ["[ADMIN] Deleted job " ++ job_id ++ " from DB."],
   s.filter fun j => !(j.id == job_id))

/-! ### Basic lemmas about the embedded store operations -/

theorem id_of_update_fun (i st : String) (j : Job) :
    (if j.id == i then { j with status := st } else j).id = j.id := by
  split <;> rfl

theorem ids_db_update_status (s : JobStore) (i st : String) :
    (db_update_status s i st).map Job.id = s.map Job.id := by
  simp only [db_update_status, List.map_map]
  exact List.map_congr_left fun j _ => id_of_update_fun i st j

theorem statusOf_db_update_status (s : JobStore) (i st i' : String) :
    statusOf (db_update_status s i st) i' =
      if i' = i then (statusOf s i').map (fun _ => st) else statusOf s i' := by
  have hpred : ((fun k : Job => k.id == i') ∘
      fun j : Job => if j.id == i then { j with status := st } else j) =
      fun j : Job => j.id == i' := by
    funext j
    simp only [Function.comp_apply, id_of_update_fun]
  unfold statusOf db_update_status
  rw [List.find?_map, hpred]
  rcases hfind : s.find? (fun j : Job => j.id == i') with _ | j
  · by_cases hii : i' = i <;> simp [hii]
  · have hjid : j.id = i' := by
      have := List.find?_some hfind
      simpa using this
    by_cases hii : i' = i
    · simp [hjid, hii]
    · simp [hjid, hii]

theorem statusOf_isSome_of_mem (s : JobStore) (j : Job) (hj : j ∈ s) :
    (statusOf s j.id).isSome := by
  have : (s.find? fun k : Job => k.id == j.id).isSome := by
    rw [List.find?_isSome]
    exact ⟨j, hj, by simp⟩
  unfold statusOf
  rcases hfind : s.find? (fun k : Job => k.id == j.id) with _ | k
  · rw [hfind] at this
    simp at this
  · simp

theorem find?_id_eq_of_nodup (s : JobStore) (h : (s.map Job.id).Nodup)
    (j : Job) (hj : j ∈ s) : (s.find? fun k => k.id == j.id) = some j := by
  induction s with
  | nil => cases hj
  | cons k rest ih =>
    rcases List.mem_cons.1 hj with rfl | hmem
    · exact List.find?_cons_of_pos _ (by simp)
    · by_cases hk : k.id = j.id
      · exfalso
        have hnotin : k.id ∉ rest.map Job.id := (List.nodup_cons.1 h).1
        exact hnotin (hk ▸ List.mem_map_of_mem Job.id hmem)
      · rw [List.find?_cons_of_neg _ (by simp [hk])]
        exact ih (List.nodup_cons.1 h).2 hmem

theorem statusOf_eq_of_nodup (s : JobStore) (h : (s.map Job.id).Nodup)
    (j : Job) (hj : j ∈ s) : statusOf s j.id = some j.status := by
  simp [statusOf, find?_id_eq_of_nodup s h j hj]

theorem minByCreated_cons_isSome (j : Job) (rest : List Job) :
    (minByCreated (j :: rest)).isSome := by
  simp only [minByCreated]
  cases minByCreated rest with
  | none => rfl
  | some b =>
    by_cases hb : b.created_at < j.created_at
    · simp [hb]
    · simp [hb]

theorem minByCreated_eq_none_iff (l : List Job) : minByCreated l = none ↔ l = [] := by
  cases l with
  | nil => simp [minByCreated]
  | cons j rest =>
    constructor
    · intro h
      have hs := minByCreated_cons_isSome j rest
      rw [h] at hs
      simp at hs
    · intro h
      exact absurd h (List.cons_ne_nil j rest)

/-- Characterisation of the `ORDER BY created_at ASC LIMIT 1` row: it
splits the queued rows into a prefix of strictly younger rows and a
suffix of no-older rows, i.e. it is the first row attaining the minimal
`created_at`. -/
theorem minByCreated_split (l : List Job) (r : Job) (h : minByCreated l = some r) :
    ∃ l₁ l₂, l = l₁ ++ r :: l₂ ∧ (∀ k ∈ l₁, r.created_at < k.created_at) ∧
      ∀ k ∈ l₂, r.created_at ≤ k.created_at := by
  induction l generalizing r with
  | nil => simp [minByCreated] at h
  | cons j rest ih =>
    rcases hr : minByCreated rest with _ | b
    · have hnil : rest = [] := (minByCreated_eq_none_iff rest).1 hr
      subst hnil
      simp only [minByCreated, hr] at h
      cases h
      exact ⟨[], [], rfl, by simp, by simp⟩
    · rcases ih b hr with ⟨l₁, l₂, hsplit, hlt, hle⟩
      simp only [minByCreated, hr] at h
      by_cases hb : b.created_at < j.created_at
      · rw [if_pos hb] at h
        cases h
        exact ⟨j :: l₁, l₂, by rw [hsplit]; rfl, by
          intro k hk
          rcases List.mem_cons.1 hk with rfl | hk
          · exact hb
          · exact hlt k hk, hle⟩
      · rw [if_neg hb] at h
        cases h
        push_neg at hb
        refine ⟨[], rest, rfl, by simp, ?_⟩
        intro k hk
        rw [hsplit] at hk
        rcases List.mem_append.1 hk with hk | hk
        · exact le_trans hb (le_of_lt (hlt k hk))
        · rcases List.mem_cons.1 hk with rfl | hk
          · exact hb
          · exact le_trans hb (hle k hk)

theorem minByCreated_mem (l : List Job) (r : Job) (h : minByCreated l = some r) :
    r ∈ l := by
  rcases minByCreated_split l r h with ⟨l₁, l₂, hsplit, -, -⟩
  rw [hsplit]
  exact List.mem_append_right l₁ (List.mem_cons_self r l₂)

theorem minByCreated_le (l : List Job) (r : Job) (h : minByCreated l = some r) :
    ∀ k ∈ l, r.created_at ≤ k.created_at := by
  rcases minByCreated_split l r h with ⟨l₁, l₂, hsplit, hlt, hle⟩
  intro k hk
  rw [hsplit] at hk
  rcases List.mem_append.1 hk with hk | hk
  · exact le_of_lt (hlt k hk)
  · rcases List.mem_cons.1 hk with rfl | hk
    · exact le_refl _
    · exact hle k hk

theorem next_job_select_mem_queued (s : JobStore) (r : Job)
    (h : next_job_select s = some r) : r ∈ s ∧ r.status = "queued" := by
  have hmem := minByCreated_mem _ r h
  rw [List.mem_filter] at hmem
  exact ⟨hmem.1, by simpa using hmem.2⟩

theorem db_update_status_idem (s : JobStore) (i st : String) :
    db_update_status (db_update_status s i st) i st = db_update_status s i st := by
  unfold db_update_status
  rw [List.map_map]
  refine List.map_congr_left fun j _ => ?_
  by_cases h : j.id = i
  · simp [h]
  · simp [h]

theorem db_update_status_of_absent (s : JobStore) (i st : String)
    (h : ∀ j ∈ s, j.id ≠ i) : db_update_status s i st = s := by
  unfold db_update_status
  refine Eq.trans (List.map_congr_left fun j hj => ?_) (List.map_id s)
  simp [h j hj]

theorem statusOf_some_mem (s : JobStore) (i x : String)
    (h : statusOf s i = some x) : ∃ j ∈ s, j.id = i ∧ j.status = x := by
  unfold statusOf at h
  rcases hfind : s.find? (fun k : Job => k.id == i) with _ | j <;> rw [hfind] at h
  · simp at h
  · refine ⟨j, List.mem_of_find?_eq_some hfind, ?_, ?_⟩
    · simpa using List.find?_some hfind
    · simpa using h

/-! ### Claim C2 -/

/-- Jobs A, B, C of the dispatch-order scenario: created with strictly
increasing timestamps and all queued. -/
def jobA : Job := Job.mk "a" "a.jpg" "alice" "https://pp.s3.amazonaws.com/a.jpg" "queued" 10

def jobB : Job := Job.mk "b" "b.jpg" "bob" "https://pp.s3.amazonaws.com/b.jpg" "queued" 20

def jobC : Job := Job.mk "c" "c.jpg" "carol" "https://pp.s3.amazonaws.com/c.jpg" "queued" 30

def abcStore : JobStore := [jobA, jobB, jobC]

/-- Claim C2 (confirmed): whenever at least one job is queued,
`next_job` returns a row that was queued at selection time, namely the
first queued row attaining the minimal `created_at` (so ties go to the
earlier insertion), and afterwards that job's status is `printing`;
moreover on the concrete A, B, C scenario the three sequential calls
return A, then B, then C. -/
theorem next_job_dispatches_oldest_queued (s : JobStore) (j : Job)
    (hj : j ∈ s) (hq : j.status = "queued") :
    (∃ r, next_job_select s = some r ∧ r.status = "queued" ∧
      (next_job s).1 = some r.view ∧
      statusOf (next_job s).2 r.id = some "printing" ∧
      ∃ l₁ l₂, (s.filter fun k : Job => k.status == "queued") = l₁ ++ r :: l₂ ∧
        (∀ k ∈ l₁, r.created_at < k.created_at) ∧
        ∀ k ∈ l₂, r.created_at ≤ k.created_at) ∧
    ((next_job abcStore).1 = some jobA.view ∧
      (next_job (next_job abcStore).2).1 = some jobB.view ∧
      (next_job (next_job (next_job abcStore).2).2).1 = some jobC.view) := by
  constructor
  · have hjf : j ∈ s.filter fun k : Job => k.status == "queued" :=
      List.mem_filter.2 ⟨hj, by simp [hq]⟩
    rcases hsel : next_job_select s with _ | r
    · exfalso
      have hnil : (s.filter fun k : Job => k.status == "queued") = [] :=
        (minByCreated_eq_none_iff _).1 hsel
      rw [hnil] at hjf
      cases hjf
    · have hmemq := next_job_select_mem_queued s r hsel
      refine ⟨r, rfl, hmemq.2, ?_, ?_, minByCreated_split _ r hsel⟩
      · unfold next_job
        rw [hsel]
      · unfold next_job
        rw [hsel]
        show statusOf (db_update_status s r.id "printing") r.id = some "printing"
        rw [statusOf_db_update_status, if_pos rfl]
        have hsome := statusOf_isSome_of_mem s r hmemq.1
        rcases hst : statusOf s r.id with _ | x
        · rw [hst] at hsome
          simp at hsome
        · simp
  · exact ⟨by decide, by decide, by decide⟩

theorem next_job_dispatches_oldest_queued_witness :
    (∃ r, next_job_select abcStore = some r ∧ r.status = "queued" ∧
      (next_job abcStore).1 = some r.view ∧
      statusOf (next_job abcStore).2 r.id = some "printing" ∧
      ∃ l₁ l₂, (abcStore.filter fun k : Job => k.status == "queued") = l₁ ++ r :: l₂ ∧
        (∀ k ∈ l₁, r.created_at < k.created_at) ∧
        ∀ k ∈ l₂, r.created_at ≤ k.created_at) ∧
    ((next_job abcStore).1 = some jobA.view ∧
      (next_job (next_job abcStore).2).1 = some jobB.view ∧
      (next_job (next_job (next_job abcStore).2).2).1 = some jobC.view) :=
  next_job_dispatches_oldest_queued abcStore jobA (by decide) (by decide)

/-! ### Claim C3 -/

/-- Claim C3 (counterexample): `mark_printed` on an id that is in no row
of the store answers `{"ok": True}` and not the claimed `NotFound` (the
handler runs the UPDATE unconditionally and never checks existence). -/
theorem mark_printed_unknown_ok_cex :
    (mark_printed [Job.mk "x1" "x1.jpg" "dana" "u1" "uploaded" 1] "ghost").1
      = ApiResult.ok ∧
    (mark_printed [Job.mk "x1" "x1.jpg" "dana" "u1" "uploaded" 1] "ghost").2
      = [Job.mk "x1" "x1.jpg" "dana" "u1" "uploaded" 1] ∧
    ApiResult.ok ≠ ApiResult.notFound := by decide

/-- Claim C3 (corrected): `mark_printed` never fails: on an unknown id
it still returns ok and leaves the store unchanged; no call ever
produces `NotFound` (for existing jobs it likewise returns ok, see the
idempotency theorem for claim C5). -/
theorem mark_printed_unknown_is_silent_noop (s : JobStore) (i : String)
    (h : ∀ j ∈ s, j.id ≠ i) :
    (mark_printed s i).1 = ApiResult.ok ∧ (mark_printed s i).2 = s :=
  ⟨rfl, db_update_status_of_absent s i "printed" h⟩

theorem mark_printed_unknown_is_silent_noop_witness :
    (mark_printed [Job.mk "x1" "x1.jpg" "dana" "u1" "uploaded" 1] "ghost").1
      = ApiResult.ok ∧
    (mark_printed [Job.mk "x1" "x1.jpg" "dana" "u1" "uploaded" 1] "ghost").2
      = [Job.mk "x1" "x1.jpg" "dana" "u1" "uploaded" 1] :=
  mark_printed_unknown_is_silent_noop _ "ghost" (by decide)

/-! ### Claim C5 -/

/-- Claim C5 (confirmed): for every existing job, `mark_printed` returns
ok and leaves the job's status `printed`; the second of two consecutive
calls also returns ok and leaves the store exactly as the first call
left it, so the outcome is the same regardless of the job's prior
status. -/
theorem mark_printed_idempotent (s : JobStore) (i : String) (j : Job)
    (hj : j ∈ s) (hid : j.id = i) :
    (mark_printed s i).1 = ApiResult.ok ∧
    statusOf (mark_printed s i).2 i = some "printed" ∧
    mark_printed (mark_printed s i).2 i = (ApiResult.ok, (mark_printed s i).2) := by
  refine ⟨rfl, ?_, ?_⟩
  · show statusOf (db_update_status s i "printed") i = some "printed"
    rw [statusOf_db_update_status, if_pos rfl]
    have hsome := statusOf_isSome_of_mem s j hj
    rw [hid] at hsome
    rcases hst : statusOf s i with _ | x
    · rw [hst] at hsome
      simp at hsome
    · simp
  · show mark_printed (db_update_status s i "printed") i = _
    unfold mark_printed
    rw [db_update_status_idem]

theorem mark_printed_idempotent_witness :
    (mark_printed [Job.mk "w5" "w5.jpg" "wes" "u5" "printing" 7] "w5").1 = ApiResult.ok ∧
    statusOf (mark_printed [Job.mk "w5" "w5.jpg" "wes" "u5" "printing" 7] "w5").2 "w5"
      = some "printed" ∧
    mark_printed (mark_printed [Job.mk "w5" "w5.jpg" "wes" "u5" "printing" 7] "w5").2 "w5"
      = (ApiResult.ok,
         (mark_printed [Job.mk "w5" "w5.jpg" "wes" "u5" "printing" 7] "w5").2) :=
  mark_printed_idempotent _ "w5" (Job.mk "w5" "w5.jpg" "wes" "u5" "printing" 7)
    (by decide) (by decide)

/-! ### Claim C6 -/

/-- Claim C6 (confirmed): `trigger_print` on a job whose status is
already `queued` returns ok and leaves the whole store unchanged (every
field of every job, since the resulting store is equal to the input). -/
theorem trigger_print_queued_noop (s : JobStore) (i : String) (j : Job)
    (hn : (s.map Job.id).Nodup) (hj : j ∈ s) (hid : j.id = i)
    (hq : j.status = "queued") :
    trigger_print s i = (ApiResult.ok, s) := by
  have hne : ¬ (s.filter fun k : Job => k.id == i).isEmpty = true := by
    rw [List.isEmpty_iff]
    intro hempty
    have hmem : j ∈ s.filter fun k : Job => k.id == i :=
      List.mem_filter.2 ⟨hj, by simp [hid]⟩
    rw [hempty] at hmem
    cases hmem
  unfold trigger_print
  rw [if_neg hne]
  have hupd : db_update_status s i "queued" = s := by
    unfold db_update_status
    refine Eq.trans (List.map_congr_left fun k hk => ?_) (List.map_id s)
    by_cases hki : k.id = i
    · have hkj : k = j :=
        List.inj_on_of_nodup_map hn hk hj (by rw [hki, hid])
      subst hkj
      obtain ⟨kid, kfn, ku, kurl, kst, kc⟩ := k
      simp only at hq
      simp [hki, hq]
    · simp [hki]
  rw [hupd]

theorem trigger_print_queued_noop_witness :
    trigger_print [Job.mk "w6" "w6.jpg" "wyn" "u6" "queued" 2] "w6"
      = (ApiResult.ok, [Job.mk "w6" "w6.jpg" "wyn" "u6" "queued" 2]) :=
  trigger_print_queued_noop _ "w6" (Job.mk "w6" "w6.jpg" "wyn" "u6" "queued" 2)
    (by decide) (by decide) (by decide) (by decide)

/-! ### Claim C7 -/

/-- Claim C7 (confirmed): `trigger_print` on an id with no row in the
store returns the 404 not-found response and leaves the store
unchanged. -/
theorem trigger_print_unknown_notFound (s : JobStore) (i : String)
    (h : ∀ j ∈ s, j.id ≠ i) :
    trigger_print s i = (ApiResult.notFound, s) := by
  unfold trigger_print
  rw [if_pos]
  rw [List.isEmpty_iff, List.filter_eq_nil_iff]
  intro j hj
  simp [h j hj]

theorem trigger_print_unknown_notFound_witness :
    trigger_print [Job.mk "w7" "w7.jpg" "gil" "u7" "uploaded" 1] "ghost7"
      = (ApiResult.notFound, [Job.mk "w7" "w7.jpg" "gil" "u7" "uploaded" 1]) :=
  trigger_print_unknown_notFound _ "ghost7" (by decide)

/-! ### Claim C8 -/

/-- Claim C8 (confirmed): when no job is queued, `next_job` returns the
empty (all-`None`) result and the store is returned untouched. -/
theorem next_job_empty_queue (s : JobStore)
    (h : ∀ j ∈ s, j.status ≠ "queued") :
    next_job s = (none, s) := by
  have hfil : (s.filter fun j : Job => j.status == "queued") = [] := by
    rw [List.filter_eq_nil_iff]
    intro j hj
    simp [h j hj]
  unfold next_job next_job_select
  rw [hfil]
  rfl

theorem next_job_empty_queue_witness :
    next_job [Job.mk "w8" "w8.jpg" "ada" "u8" "printed" 4]
      = (none, [Job.mk "w8" "w8.jpg" "ada" "u8" "printed" 4]) :=
  next_job_empty_queue _ (by decide)

/-! ### Claim C9 -/

/-- Claim C9 (confirmed): for an existing job, `delete_job` always
answers with the non-error redirect and removes every row carrying the
id, and the resulting store is the same whether the S3 delete succeeded
or raised `ClientError` (the failure is only logged). -/
theorem delete_job_removes_row_despite_blob_failure (s : JobStore)
    (i : String) (j : Job) (hj : j ∈ s) (hid : j.id = i) (blobOk : Bool) :
    (delete_job s i blobOk).1 = ApiResult.ok ∧
    (∀ k ∈ (delete_job s i blobOk).2.2, k.id ≠ i) ∧
    (delete_job s i false).2.2 = (delete_job s i true).2.2 := by
  refine ⟨rfl, ?_, rfl⟩
  intro k hk
  have hk' : k ∈ s.filter fun m : Job => !(m.id == i) := hk
  rw [List.mem_filter] at hk'
  simpa using hk'.2

theorem delete_job_removes_row_despite_blob_failure_witness :
    (delete_job [Job.mk "w9" "w9.jpg" "nia" "u9" "queued" 6] "w9" false).1
      = ApiResult.ok ∧
    (∀ k ∈ (delete_job [Job.mk "w9" "w9.jpg" "nia" "u9" "queued" 6] "w9" false).2.2,
      k.id ≠ "w9") ∧
    (delete_job [Job.mk "w9" "w9.jpg" "nia" "u9" "queued" 6] "w9" false).2.2
      = (delete_job [Job.mk "w9" "w9.jpg" "nia" "u9" "queued" 6] "w9" true).2.2 :=
  delete_job_removes_row_despite_blob_failure _ "w9"
    (Job.mk "w9" "w9.jpg" "nia" "u9" "queued" 6) (by decide) (by decide) false

/-! ### Claim C1 -/

/-- Claim C1 (counterexample): there is no compare-and-swap — `next_job`
runs its SELECT and its UPDATE as two separate `db_query` calls, and the
UPDATE filters on the id only.  Under the interleaving in which both
pollers SELECT before either UPDATEs, both callers are handed the same
job; and the UPDATE phase flips even a row that is no longer `queued`
(here a `printed` one) to `printing`, showing it is not conditioned on
`status = 'queued'`. -/
theorem next_job_interleaved_duplicate_cex :
    (next_job_interleaved [Job.mk "r1" "r1.jpg" "rae" "ur" "queued" 5]).1
      = some (JobView.mk "r1" "r1.jpg" "rae" "ur") ∧
    (next_job_interleaved [Job.mk "r1" "r1.jpg" "rae" "ur" "queued" 5]).2.1
      = some (JobView.mk "r1" "r1.jpg" "rae" "ur") ∧
    next_job_update [Job.mk "r1" "r1.jpg" "rae" "ur" "printed" 5] "r1"
      = [Job.mk "r1" "r1.jpg" "rae" "ur" "printing" 5] := by decide

/-- Claim C1 (corrected): `next_job` is select-then-update, not an
atomic conditional update, so two concurrently interleaved callers can
receive the same job; what does hold is that calls running one after
the other never hand out the same job twice, because the first call
leaves every row with the dispatched id in status `printing` and
selection only considers `queued` rows. -/
theorem next_job_sequential_distinct (s : JobStore) (v w : JobView)
    (h1 : (next_job s).1 = some v)
    (h2 : (next_job (next_job s).2).1 = some w) :
    v.id ≠ w.id := by
  unfold next_job at h1
  rcases hsel : next_job_select s with _ | r <;> rw [hsel] at h1
  · simp at h1
  · simp only at h1
    have hv : v = r.view := by
      have := h1
      simp at this
      exact this.symm
    have hs2 : (next_job s).2 = next_job_update s r.id := by
      unfold next_job
      rw [hsel]
    rw [hs2] at h2
    unfold next_job at h2
    rcases hsel2 : next_job_select (next_job_update s r.id) with _ | r2 <;>
      rw [hsel2] at h2
    · simp at h2
    · have hw : w = r2.view := by
        have := h2
        simp at this
        exact this.symm
      have hmem2 := next_job_select_mem_queued _ r2 hsel2
      intro heq
      rw [hv, hw] at heq
      have hid2 : r2.id = r.id := heq.symm
      have hr2mem : r2 ∈ (s.map fun j : Job =>
          if j.id == r.id then { j with status := "printing" } else j) := hmem2.1
      rcases List.mem_map.1 hr2mem with ⟨k, hk, hfk⟩
      by_cases hki : k.id = r.id
      · rw [if_pos (by simp [hki])] at hfk
        have : r2.status = "printing" := by rw [← hfk]
        rw [hmem2.2] at this
        exact absurd this (by decide)
      · rw [if_neg (by simp [hki])] at hfk
        rw [← hfk] at hid2
        exact hki hid2

theorem next_job_sequential_distinct_witness :
    jobA.view.id ≠ jobB.view.id :=
  next_job_sequential_distinct abcStore jobA.view jobB.view
    (by decide) (by decide)

/-! ### Claim C4 -/

/-- One status-mutating call from the claim's operation set (engine or
admin). -/
inductive QOp where
  | enqueue (jobId : String)
  | adminQueue (jobId : String)
  | dispatch
  | complete (jobId : String)
deriving DecidableEq, Repr

/-- Effect of one call on the `jobs` table. -/
def applyQOp (s : JobStore) : QOp → JobStore
  | .enqueue i => (trigger_print s i).2
  | .adminQueue i => (queue_job s i).2
  | .dispatch => (next_job s).2
  | .complete i => (mark_printed s i).2

/-- Effect of a whole call sequence on the table. -/
def applyQOps (s : JobStore) (ops : List QOp) : JobStore :=
  ops.foldl applyQOp s

/-- Follows the spec's words: the state-machine edges of section 4.1
(`uploaded --Enqueue--> queued`, `queued --Enqueue--> queued`,
`queued --DispatchNext--> printing`, `any --CompletePrint--> printed`)
together with the section 9 note that `Enqueue` may legally take a
`printing` job back to `queued`. -/
def specStatusEdge (a b : String) : Prop :=
  (a = "uploaded" ∧ b = "queued") ∨ (a = "queued" ∧ b = "queued") ∨
  (a = "printing" ∧ b = "queued") ∨ (a = "queued" ∧ b = "printing") ∨
  b = "printed"

instance (a b : String) : Decidable (specStatusEdge a b) := by
  unfold specStatusEdge
  infer_instance

/-- The edges the code actually realises: the spec's edges plus
re-queueing a `printed` job, because both queue handlers run the UPDATE
to `'queued'` unconditionally on any existing id. -/
def codeStatusEdge (a b : String) : Prop :=
  specStatusEdge a b ∨ (a = "printed" ∧ b = "queued")

instance (a b : String) : Decidable (codeStatusEdge a b) := by
  unfold codeStatusEdge
  infer_instance

def validStatus (st : String) : Prop :=
  st = "uploaded" ∨ st = "queued" ∨ st = "printing" ∨ st = "printed"

instance (st : String) : Decidable (validStatus st) := by
  unfold validStatus
  infer_instance

/-- Every row carries one of the four lifecycle statuses. -/
def ValidStore (s : JobStore) : Prop := ∀ j ∈ s, validStatus j.status

instance (s : JobStore) : Decidable (ValidStore s) :=
  List.decidableBAll _ s

theorem validStore_db_update_status (s : JobStore) (i st : String)
    (hv : ValidStore s) (hst : validStatus st) :
    ValidStore (db_update_status s i st) := by
  intro k hk
  rw [db_update_status, List.mem_map] at hk
  obtain ⟨j, hj, rfl⟩ := hk
  by_cases h : j.id = i
  · simpa [h] using hst
  · simpa [h] using hv j hj

theorem validStore_applyQOp (s : JobStore) (op : QOp) (hv : ValidStore s) :
    ValidStore (applyQOp s op) := by
  cases op with
  | enqueue i =>
    show ValidStore (trigger_print s i).2
    unfold trigger_print
    split
    · exact hv
    · exact validStore_db_update_status s i "queued" hv (Or.inr (Or.inl rfl))
  | adminQueue i =>
    exact validStore_db_update_status s i "queued" hv (Or.inr (Or.inl rfl))
  | dispatch =>
    show ValidStore (next_job s).2
    unfold next_job
    rcases hsel : next_job_select s with _ | r
    · exact hv
    · exact validStore_db_update_status s r.id "printing" hv
        (Or.inr (Or.inr (Or.inl rfl)))
  | complete i =>
    exact validStore_db_update_status s i "printed" hv
      (Or.inr (Or.inr (Or.inr rfl)))

theorem nodup_ids_applyQOp (s : JobStore) (op : QOp)
    (hn : (s.map Job.id).Nodup) : ((applyQOp s op).map Job.id).Nodup := by
  cases op with
  | enqueue i =>
    show ((trigger_print s i).2.map Job.id).Nodup
    unfold trigger_print
    split
    · exact hn
    · rw [ids_db_update_status]
      exact hn
  | adminQueue i =>
    show ((db_update_status s i "queued").map Job.id).Nodup
    rw [ids_db_update_status]
    exact hn
  | dispatch =>
    show (((next_job s).2).map Job.id).Nodup
    unfold next_job
    rcases hsel : next_job_select s with _ | r
    · exact hn
    · show ((db_update_status s r.id "printing").map Job.id).Nodup
      rw [ids_db_update_status]
      exact hn
  | complete i =>
    show ((db_update_status s i "printed").map Job.id).Nodup
    rw [ids_db_update_status]
    exact hn

theorem validStore_applyQOps (s : JobStore) (ops : List QOp)
    (hv : ValidStore s) : ValidStore (applyQOps s ops) := by
  induction ops generalizing s with
  | nil => exact hv
  | cons op rest ih => exact ih _ (validStore_applyQOp s op hv)

theorem nodup_ids_applyQOps (s : JobStore) (ops : List QOp)
    (hn : (s.map Job.id).Nodup) : ((applyQOps s ops).map Job.id).Nodup := by
  induction ops generalizing s with
  | nil => exact hn
  | cons op rest ih => exact ih _ (nodup_ids_applyQOp s op hn)

theorem statusOf_update_cases (s : JobStore) (i' st i x y : String)
    (hx : statusOf s i = some x)
    (hy : statusOf (db_update_status s i' st) i = some y) :
    x = y ∨ y = st := by
  rw [statusOf_db_update_status] at hy
  by_cases h : i = i'
  · rw [if_pos h, hx] at hy
    right
    simpa using hy.symm
  · rw [if_neg h, hx] at hy
    left
    simpa using hy

/-- One call moves an existing job's status along a realised edge (or
not at all). -/
theorem applyQOp_status_edge (s : JobStore) (op : QOp)
    (hv : ValidStore s) (hn : (s.map Job.id).Nodup)
    (i x y : String) (hx : statusOf s i = some x)
    (hy : statusOf (applyQOp s op) i = some y) :
    x = y ∨ codeStatusEdge x y := by
  have hxvalid : validStatus x := by
    obtain ⟨j, hj, -, hjst⟩ := statusOf_some_mem s i x hx
    exact hjst ▸ hv j hj
  cases op with
  | enqueue i' =>
    have hy' : statusOf (trigger_print s i').2 i = some y := hy
    unfold trigger_print at hy'
    by_cases hemp : (s.filter fun k : Job => k.id == i').isEmpty = true
    · rw [if_pos hemp] at hy'
      left
      rw [hx] at hy'
      simpa using hy'
    · rw [if_neg hemp] at hy'
      rcases statusOf_update_cases s i' "queued" i x y hx hy' with h | h
      · exact Or.inl h
      · right
        subst h
        rcases hxvalid with h | h | h | h
        · exact Or.inl (Or.inl ⟨h, rfl⟩)
        · exact Or.inl (Or.inr (Or.inl ⟨h, rfl⟩))
        · exact Or.inl (Or.inr (Or.inr (Or.inl ⟨h, rfl⟩)))
        · exact Or.inr ⟨h, rfl⟩
  | adminQueue i' =>
    have hy' : statusOf (db_update_status s i' "queued") i = some y := hy
    rcases statusOf_update_cases s i' "queued" i x y hx hy' with h | h
    · exact Or.inl h
    · right
      subst h
      rcases hxvalid with h | h | h | h
      · exact Or.inl (Or.inl ⟨h, rfl⟩)
      · exact Or.inl (Or.inr (Or.inl ⟨h, rfl⟩))
      · exact Or.inl (Or.inr (Or.inr (Or.inl ⟨h, rfl⟩)))
      · exact Or.inr ⟨h, rfl⟩
  | dispatch =>
    have hy' : statusOf (next_job s).2 i = some y := hy
    unfold next_job at hy'
    rcases hsel : next_job_select s with _ | r <;> rw [hsel] at hy'
    · left
      rw [hx] at hy'
      simpa using hy'
    · have hy2 : statusOf (db_update_status s r.id "printing") i = some y := hy'
      rw [statusOf_db_update_status] at hy2
      by_cases hir : i = r.id
      · have hmemq := next_job_select_mem_queued s r hsel
        have hfind : statusOf s r.id = some r.status :=
          statusOf_eq_of_nodup s hn r hmemq.1
        rw [if_pos hir, hx] at hy2
        have hxq : x = "queued" := by
          rw [hir, hfind] at hx
          rw [hmemq.2] at hx
          simpa using (Option.some.inj hx).symm
        have hyp : y = "printing" := by simpa using hy2.symm
        right
        left
        exact Or.inr (Or.inr (Or.inr (Or.inl ⟨hxq, hyp⟩)))
      · rw [if_neg hir, hx] at hy2
        left
        simpa using hy2
  | complete i' =>
    have hy' : statusOf (db_update_status s i' "printed") i = some y := hy
    rcases statusOf_update_cases s i' "printed" i x y hx hy' with h | h
    · exact Or.inl h
    · exact Or.inr (Or.inl (Or.inr (Or.inr (Or.inr (Or.inr h)))))

/-- No call gives a row the status `uploaded`. -/
theorem applyQOp_no_return_to_uploaded (s : JobStore) (op : QOp)
    (i x y : String) (hx : statusOf s i = some x) (hxu : x ≠ "uploaded")
    (hy : statusOf (applyQOp s op) i = some y) : y ≠ "uploaded" := by
  cases op with
  | enqueue i' =>
    have hy' : statusOf (trigger_print s i').2 i = some y := hy
    unfold trigger_print at hy'
    by_cases hemp : (s.filter fun k : Job => k.id == i').isEmpty = true
    · rw [if_pos hemp, hx] at hy'
      intro hyu
      exact hxu (by simpa [hyu] using hy')
    · rw [if_neg hemp] at hy'
      rcases statusOf_update_cases s i' "queued" i x y hx hy' with h | h
      · exact h ▸ hxu
      · rw [h]
        decide
  | adminQueue i' =>
    rcases statusOf_update_cases s i' "queued" i x y hx hy with h | h
    · exact h ▸ hxu
    · rw [h]
      decide
  | dispatch =>
    have hy' : statusOf (next_job s).2 i = some y := hy
    unfold next_job at hy'
    rcases hsel : next_job_select s with _ | r <;> rw [hsel] at hy'
    · rw [hx] at hy'
      intro hyu
      exact hxu (by simpa [hyu] using hy')
    · rcases statusOf_update_cases s r.id "printing" i x y hx hy' with h | h
      · exact h ▸ hxu
      · rw [h]
        decide
  | complete i' =>
    rcases statusOf_update_cases s i' "printed" i x y hx hy with h | h
    · exact h ▸ hxu
    · rw [h]
      decide

/-- Claim C4 (counterexample): the operations do not stay on the spec's
defined edges — `trigger_print` on a `printed` job moves it back to
`queued`, an edge absent from the spec's state machine. -/
theorem printed_requeue_cex :
    statusOf [Job.mk "p1" "p1.jpg" "pat" "up" "printed" 3] "p1"
      = some "printed" ∧
    statusOf (applyQOp [Job.mk "p1" "p1.jpg" "pat" "up" "printed" 3]
      (QOp.enqueue "p1")) "p1" = some "queued" ∧
    ("printed" : String) ≠ "queued" ∧
    ¬ specStatusEdge "printed" "queued" := by decide

/-- Claim C4 (corrected): along every sequence of Enqueue /
DispatchNext / CompletePrint calls (engine or admin) from a store whose
statuses are the four lifecycle values and whose ids are unique, each
individual call changes an existing job's status only along the spec's
edges extended with `printed → queued` (the queue handlers re-queue
unconditionally); in particular a status never becomes `uploaded` again
once it has left `uploaded`. -/
theorem status_transitions_follow_code_edges (s : JobStore)
    (hv : ValidStore s) (hn : (s.map Job.id).Nodup)
    (pre : List QOp) (op : QOp) (i x y : String)
    (hx : statusOf (applyQOps s pre) i = some x)
    (hy : statusOf (applyQOps s (pre ++ [op])) i = some y) :
    (x = y ∨ codeStatusEdge x y) ∧ (x ≠ "uploaded" → y ≠ "uploaded") := by
  have hv' : ValidStore (applyQOps s pre) := validStore_applyQOps s pre hv
  have hn' : ((applyQOps s pre).map Job.id).Nodup := nodup_ids_applyQOps s pre hn
  have happ : applyQOps s (pre ++ [op]) = applyQOp (applyQOps s pre) op := by
    unfold applyQOps
    rw [List.foldl_append]
    rfl
  rw [happ] at hy
  exact ⟨applyQOp_status_edge _ op hv' hn' i x y hx hy,
    fun hxu => applyQOp_no_return_to_uploaded _ op i x y hx hxu hy⟩

theorem status_transitions_follow_code_edges_witness :
    (("uploaded" : String) = "queued" ∨ codeStatusEdge "uploaded" "queued") ∧
    (("uploaded" : String) ≠ "uploaded" → ("queued" : String) ≠ "uploaded") :=
  status_transitions_follow_code_edges
    [Job.mk "w4" "w4.jpg" "max" "u4" "uploaded" 0] (by decide) (by decide)
    [] (QOp.enqueue "w4") "w4" "uploaded" "queued" (by decide) (by decide)

/-! ### Claim C10 -/

/-- Claim C10 (confirmed): when the S3 put raises `ClientError`, the
upload handler returns the failure body and the job table is exactly the
input table — no row is inserted, so a row can exist only for a blob
that was stored first. -/
theorem upload_no_row_on_blob_failure (s : JobStore)
    (job_id image_filename user bucket : String) (created : Nat) :
    upload s job_id image_filename user bucket created false
      = (UploadResult.failure, s) := rfl

end PartyPrint
